import Mathlib

/-!
Verification development for the BMI3XY sensor API FIFO frame engine.

The repository ships the public header `bmi3.h` (declaring
`bmi3_read_fifo_data`, `bmi3_extract_accel`, `bmi3_extract_gyro`,
`bmi3_extract_temperature`, `bmi3_get_fifo_length`) together with example
programs; the implementation translation unit and the definitions header
holding `struct bmi3_fifo_frame`, `struct bmi3_dev` and the frame-header
constants are not part of the provided sources.  The FIFO frame engine is
therefore modelled here from the specification document, faithful to its
words: a byte buffer with a populated length and a read cursor, a
header-byte classification with fixed per-header frame widths, three
non-destructive extraction scans, and a chunked FIFO read through a
transport collaborator.
-/

namespace BMI3

/-! ## Frame-header constants and field widths

Modelled from the spec: the concrete frame-header byte values live in the
missing definitions header; the spec fixes only that the header byte
selects one of accel-data, gyro-data, temperature-data, skip-frame,
config-change, or FIFO-empty.  Distinct byte values are chosen here. -/

/-- Modelled from the spec: header byte of an accelerometer data frame. -/
def BMI3_FIFO_HEAD_ACC : Nat := 0x84

/-- Modelled from the spec: header byte of a gyroscope data frame. -/
def BMI3_FIFO_HEAD_GYR : Nat := 0x88

/-- Modelled from the spec: header byte of a temperature data frame. -/
def BMI3_FIFO_HEAD_TEMP : Nat := 0x90

/-- Modelled from the spec: header byte of a skip-frame marker (sensor
disabled, placeholder payload byte follows). -/
def BMI3_FIFO_HEAD_SKIP : Nat := 0x40

/-- Modelled from the spec: header byte of a configuration-change marker. -/
def BMI3_FIFO_HEAD_CONFIG : Nat := 0x48

/-- Modelled from the spec: header byte of the FIFO-empty marker; its frame
width is 0, signaling scan termination. -/
def BMI3_FIFO_HEAD_EMPTY : Nat := 0x80

/-- Modelled from the spec: wire value meaning that no temperature reading is
available in this frame; a valid wire value, never filtered by extraction. -/
def BMI3_FIFO_TEMP_INVALID : Nat := 0x8000

/-- Width in bytes, header byte included, of the frame introduced by header
byte `h` when the time-stamping flag is `ts`; `none` for an unrecognized
header.  Modelled from the spec: accel and gyro frames carry 6 axis bytes
plus 2 sensor-time bytes when time-stamping is enabled, temperature frames
carry one 16-bit field plus the optional time field, the skip marker carries
one placeholder byte, the config-change marker is bare, and the FIFO-empty
marker has width 0. -/
def frameWidth (ts : Bool) (h : Nat) : Option Nat :=
  if h = BMI3_FIFO_HEAD_ACC then some (if ts then 9 else 7)
  else if h = BMI3_FIFO_HEAD_GYR then some (if ts then 9 else 7)
  else if h = BMI3_FIFO_HEAD_TEMP then some (if ts then 5 else 3)
  else if h = BMI3_FIFO_HEAD_SKIP then some 2
  else if h = BMI3_FIFO_HEAD_CONFIG then some 1
  else if h = BMI3_FIFO_HEAD_EMPTY then some 0
  else none

/-! ## 16-bit wire arithmetic -/

/-- Little-endian byte pair of a 16-bit word. -/
def bytes16 (w : Nat) : List Nat := [w % 256, w / 256 % 256]

/-- Assemble a 16-bit word from a little-endian byte pair. -/
def le16 (lo hi : Nat) : Nat := lo % 256 + 256 * (hi % 256)

/-- Two's-complement reading of a 16-bit wire word as a signed value. -/
def twos16 (w : Nat) : Int :=
  if w % 65536 < 32768 then (w % 65536 : Int) else (w % 65536 : Int) - 65536

/-- Two's-complement 16-bit wire word of a signed value. -/
def wire16 (v : Int) : Nat := (v % 65536).toNat

/-! ## Data model

Modelled from the spec: the frame buffer owns a byte sequence, a populated
length, a consumption cursor and a fixed capacity, with the invariant
cursor at most length at most capacity. -/

/-- Modelled from the spec: the FIFO frame buffer of `struct
bmi3_fifo_frame` in the missing definitions header. -/
structure bmi3_fifo_frame where
  data : List Nat
  length : Nat
  byte_available : Nat
  capacity : Nat
  deriving Repr, DecidableEq

/-- The frame-buffer invariant: cursor at most length at most capacity. -/
def frameWf (f : bmi3_fifo_frame) : Prop :=
  f.byte_available ≤ f.length ∧ f.length ≤ f.capacity

instance (f : bmi3_fifo_frame) : Decidable (frameWf f) := by
  unfold frameWf; infer_instance

/-- Modelled from the spec: one decoded accel or gyro reading of `struct
bmi3_fifo_sens_axes_data`, three signed 16-bit axis values plus the
optional sensor-time field. -/
structure bmi3_fifo_sens_axes_data where
  x : Int
  y : Int
  z : Int
  sensor_time : Nat
  deriving Repr, DecidableEq

/-- Modelled from the spec: one decoded temperature reading of `struct
bmi3_fifo_temperature_data`, a 16-bit wire field plus the optional
sensor-time field. -/
structure bmi3_fifo_temperature_data where
  temp_data : Nat
  sensor_time : Nat
  deriving Repr, DecidableEq

/-- Error taxonomy of the driver, modelled from the spec: a missing
required structure, or a bus failure propagated unmodified from the
transport collaborator. -/
inductive bmi3_error where
  | invalidArgument : bmi3_error
  | communicationError (code : Int) : bmi3_error
  deriving Repr, DecidableEq

/-! ## Frame scan -/

/-- Raw result of one scan pass: the payload byte lists of the frames that
matched the target header, in arrival order, the number of frames examined,
and the invalid-header anomaly counter. -/
structure ScanResult where
  payloads : List (List Nat)
  framesExamined : Nat
  invalidCount : Nat
  deriving Repr, DecidableEq

/-- Modelled from the spec: scan the byte window, classifying each frame by
its header byte.  A frame matching the target header contributes its
payload; a recognized non-matching frame is skipped over by its fixed
width; the FIFO-empty marker (width 0) terminates the scan; a truncated
trailing frame (fewer bytes remaining than the frame width) yields nothing
further; an unrecognized header halts the scan and increments the anomaly
counter exactly once. -/
def scanFrames (ts : Bool) (tgt : Nat) (bs : List Nat) : ScanResult :=
  match bs with
  | [] => ⟨[], 0, 0⟩
  | h :: rest =>
    match frameWidth ts h with
    | none => ⟨[], 0, 1⟩
    | some w =>
      if w = 0 then ⟨[], 0, 0⟩
      else if rest.length + 1 < w then ⟨[], 0, 0⟩
      else
        let r := scanFrames ts tgt (rest.drop (w - 1))
        if h = tgt then ⟨rest.take (w - 1) :: r.payloads, r.framesExamined + 1, r.invalidCount⟩
        else ⟨r.payloads, r.framesExamined + 1, r.invalidCount⟩
termination_by bs.length
decreasing_by simp [List.length_drop]; omega

/-- The byte window an extraction call scans: from the cursor to the
populated length of the buffer; bytes beyond `length` are never read. -/
def frameWindow (f : bmi3_fifo_frame) : List Nat :=
  (f.data.take f.length).drop f.byte_available

/-! ## Payload decoding -/

/-- Decode an accel or gyro frame payload: three little-endian signed
16-bit axis words, followed by a 16-bit sensor-time word when time-stamping
is enabled. -/
def decodeAxes (ts : Bool) (p : List Nat) : bmi3_fifo_sens_axes_data :=
  { x := twos16 (le16 (p.getD 0 0) (p.getD 1 0))
    y := twos16 (le16 (p.getD 2 0) (p.getD 3 0))
    z := twos16 (le16 (p.getD 4 0) (p.getD 5 0))
    sensor_time := if ts then le16 (p.getD 6 0) (p.getD 7 0) else 0 }

/-- Decode a temperature frame payload: one little-endian 16-bit wire word,
followed by a 16-bit sensor-time word when time-stamping is enabled.  The
invalid-temperature sentinel is a valid wire value and is kept. -/
def decodeTemp (ts : Bool) (p : List Nat) : bmi3_fifo_temperature_data :=
  { temp_data := le16 (p.getD 0 0) (p.getD 1 0)
    sensor_time := if ts then le16 (p.getD 2 0) (p.getD 3 0) else 0 }

/-! ## Extraction calls -/

/-- One extraction call result for accel or gyro: decoded samples in FIFO
arrival order plus the diagnostic counters. -/
structure axes_extraction where
  frames : List bmi3_fifo_sens_axes_data
  framesExamined : Nat
  invalidCount : Nat
  deriving Repr, DecidableEq

/-- One extraction call result for temperature. -/
structure temperature_extraction where
  frames : List bmi3_fifo_temperature_data
  framesExamined : Nat
  invalidCount : Nat
  deriving Repr, DecidableEq

/-- Scan the buffer window for frames of the target header and decode each
matching payload as axis data. -/
def extractAxesRes (tgt : Nat) (f : bmi3_fifo_frame) (ts : Bool) : axes_extraction :=
  let r := scanFrames ts tgt (frameWindow f)
  ⟨r.payloads.map (decodeAxes ts), r.framesExamined, r.invalidCount⟩

/-- Scan the buffer window for temperature frames and decode each matching
payload. -/
def extractTempRes (f : bmi3_fifo_frame) (ts : Bool) : temperature_extraction :=
  let r := scanFrames ts BMI3_FIFO_HEAD_TEMP (frameWindow f)
  ⟨r.payloads.map (decodeTemp ts), r.framesExamined, r.invalidCount⟩

/-- Modelled from the spec: `bmi3_extract_accel` of the missing
implementation unit.  Parses and extracts the accelerometer frames from
FIFO data read by `bmi3_read_fifo_data`.  The scan is a non-destructive
re-scan of the buffer snapshot: the returned buffer is unchanged.  The
time-stamping flag `ts` is the read-only device configuration snapshot.
Decode anomalies are reported only through the counter, never as a failure
status. -/
def bmi3_extract_accel (fifo : Option bmi3_fifo_frame) (ts : Bool) :
    Except bmi3_error (axes_extraction × bmi3_fifo_frame) :=
  match fifo with
  | none => .error .invalidArgument
  | some f => .ok (extractAxesRes BMI3_FIFO_HEAD_ACC f ts, f)

/-- Modelled from the spec: `bmi3_extract_gyro` of the missing
implementation unit, symmetric to accel extraction. -/
def bmi3_extract_gyro (fifo : Option bmi3_fifo_frame) (ts : Bool) :
    Except bmi3_error (axes_extraction × bmi3_fifo_frame) :=
  match fifo with
  | none => .error .invalidArgument
  | some f => .ok (extractAxesRes BMI3_FIFO_HEAD_GYR f ts, f)

/-- Modelled from the spec: `bmi3_extract_temperature` of the missing
implementation unit, decoding a single 16-bit field per matching frame;
sentinel-valued frames are still emitted. -/
def bmi3_extract_temperature (fifo : Option bmi3_fifo_frame) (ts : Bool) :
    Except bmi3_error (temperature_extraction × bmi3_fifo_frame) :=
  match fifo with
  | none => .error .invalidArgument
  | some f => .ok (extractTempRes f ts, f)

/-! ## FIFO read through the transport collaborator -/

/-- Modelled from the spec: the device handle of `struct bmi3_dev` in the
missing definitions header, reduced to what the FIFO read uses: the FIFO
fill level reported by the status register, the transport maximum
single-transfer size, and the transport collaborator.  The transport is
modelled as the byte stream the FIFO data register delivers at each burst
position, plus the communication-failure outcome of each chunk read: a
chunk read at a given offset and length either fails with an error code or
fills exactly the requested bytes from the stream. -/
structure bmi3_dev where
  avail_fifo_len : Nat
  read_write_len : Nat
  fifo_stream : Nat → Nat
  chunk_err : Nat → Nat → Option Int

/-- Modelled from the spec: `bmi3_get_fifo_length`, querying the available
FIFO byte count from the device status register. -/
def bmi3_get_fifo_length (dev : bmi3_dev) : Nat := dev.avail_fifo_len

/-- Read `remaining` bytes starting at burst offset `offset`, in chunks no
larger than the transport maximum single-transfer size, accumulating
contiguously; a failing chunk read aborts with the transport error code
propagated unmodified. -/
def readChunks (dev : bmi3_dev) (offset remaining : Nat) :
    Except bmi3_error (List Nat) :=
  if remaining = 0 then .ok []
  else
    let chunk := min dev.read_write_len remaining
    if chunk = 0 then .ok []
    else
      match dev.chunk_err offset chunk with
      | some code => .error (.communicationError code)
      | none =>
        match readChunks dev (offset + chunk) (remaining - chunk) with
        | .error e => .error e
        | .ok rest => .ok ((List.range chunk).map (fun i => dev.fifo_stream (offset + i)) ++ rest)
termination_by remaining
decreasing_by omega

/-- Modelled from the spec: `bmi3_read_fifo_data` of the missing
implementation unit.  Fails with InvalidArgument when the device or buffer
structure is absent; otherwise clamps the read length to the lesser of the
buffer capacity and the available FIFO byte count, reads it in chunks, and
on success returns the buffer with `length` set to the bytes actually
received and the cursor reset to 0. -/
def bmi3_read_fifo_data (fifo : Option bmi3_fifo_frame) (dev : Option bmi3_dev) :
    Except bmi3_error bmi3_fifo_frame :=
  match fifo, dev with
  | none, _ => .error .invalidArgument
  | some _, none => .error .invalidArgument
  | some f, some d =>
    let total := min f.capacity (bmi3_get_fifo_length d)
    match readChunks d 0 total with
    | .error e => .error e
    | .ok bytes =>
      .ok { data := bytes, length := bytes.length, byte_available := 0, capacity := f.capacity }

/-- A fresh frame buffer fully populated with the given bytes, cursor at 0. -/
def mkFrame (bs : List Nat) : bmi3_fifo_frame :=
  ⟨bs, bs.length, 0, bs.length⟩

/-! ## Synthetic frame sequences

An encoder for well-formed frame sequences, used to state the buffer-level
properties: each element encodes to its header byte followed by its
fixed-width payload.  The FIFO-empty marker is not a member: it terminates
a scan and is appended separately where a property needs it. -/

/-- One synthetic frame to place in a buffer. -/
inductive FrameSpec where
  | accel (x y z : Int) (t : Nat) : FrameSpec
  | gyro (x y z : Int) (t : Nat) : FrameSpec
  | temp (raw : Nat) (t : Nat) : FrameSpec
  | skip (fill : Nat) : FrameSpec
  | config : FrameSpec
  deriving Repr, DecidableEq

/-- Header byte of a synthetic frame. -/
def specHeader : FrameSpec → Nat
  | .accel _ _ _ _ => BMI3_FIFO_HEAD_ACC
  | .gyro _ _ _ _ => BMI3_FIFO_HEAD_GYR
  | .temp _ _ => BMI3_FIFO_HEAD_TEMP
  | .skip _ => BMI3_FIFO_HEAD_SKIP
  | .config => BMI3_FIFO_HEAD_CONFIG

/-- Payload bytes of a synthetic frame, time-stamp field included when the
time-stamping flag is set. -/
def specPayload (ts : Bool) : FrameSpec → List Nat
  | .accel x y z t =>
    bytes16 (wire16 x) ++ bytes16 (wire16 y) ++ bytes16 (wire16 z) ++
      (if ts then bytes16 (t % 65536) else [])
  | .gyro x y z t =>
    bytes16 (wire16 x) ++ bytes16 (wire16 y) ++ bytes16 (wire16 z) ++
      (if ts then bytes16 (t % 65536) else [])
  | .temp raw t => bytes16 (raw % 65536) ++ (if ts then bytes16 (t % 65536) else [])
  | .skip fill => [fill % 256]
  | .config => []

/-- Wire encoding of one synthetic frame: header byte then payload. -/
def encodeFrame (ts : Bool) (f : FrameSpec) : List Nat :=
  specHeader f :: specPayload ts f

/-- Wire encoding of a synthetic frame sequence, in arrival order. -/
def encodeFrames (ts : Bool) : List FrameSpec → List Nat
  | [] => []
  | f :: fs => encodeFrame ts f ++ encodeFrames ts fs

/-- Whether a synthetic frame is an accelerometer data frame. -/
def isAccelSpec (f : FrameSpec) : Bool := specHeader f == BMI3_FIFO_HEAD_ACC

/-- Whether a synthetic frame is a gyroscope data frame. -/
def isGyroSpec (f : FrameSpec) : Bool := specHeader f == BMI3_FIFO_HEAD_GYR

/-- Whether a synthetic frame is a temperature data frame. -/
def isTempSpec (f : FrameSpec) : Bool := specHeader f == BMI3_FIFO_HEAD_TEMP

/-- The axis sample the scan decodes from a synthetic frame's payload. -/
def specAxesSample (ts : Bool) (f : FrameSpec) : bmi3_fifo_sens_axes_data :=
  decodeAxes ts (specPayload ts f)

/-- The temperature sample the scan decodes from a synthetic frame's
payload. -/
def specTempSample (ts : Bool) (f : FrameSpec) : bmi3_fifo_temperature_data :=
  decodeTemp ts (specPayload ts f)

/-! ## Scan lemmas -/

theorem specPayload_length (ts : Bool) (f : FrameSpec) :
    frameWidth ts (specHeader f) = some ((specPayload ts f).length + 1) := by
  cases f <;> cases ts <;>
    simp [frameWidth, specHeader, specPayload, bytes16, BMI3_FIFO_HEAD_ACC,
      BMI3_FIFO_HEAD_GYR, BMI3_FIFO_HEAD_TEMP, BMI3_FIFO_HEAD_SKIP,
      BMI3_FIFO_HEAD_CONFIG, BMI3_FIFO_HEAD_EMPTY]

theorem scan_cons_known (ts : Bool) (tgt h : Nat) (p rest : List Nat) (w : Nat)
    (hw : frameWidth ts h = some w) (hp : p.length + 1 = w) :
    scanFrames ts tgt (h :: (p ++ rest)) =
      (fun r => if h = tgt then
          ⟨p :: r.payloads, r.framesExamined + 1, r.invalidCount⟩
        else ⟨r.payloads, r.framesExamined + 1, r.invalidCount⟩)
        (scanFrames ts tgt rest) := by
  rw [scanFrames, hw]
  have hw0 : ¬ w = 0 := by omega
  have hlen : ¬ ((p ++ rest).length + 1 < w) := by
    simp only [List.length_append]; omega
  have hpl : p.length = w - 1 := by omega
  simp only [if_neg hw0, if_neg hlen]
  rw [← hpl, List.take_left, List.drop_left]

theorem scan_encodeFrame (ts : Bool) (tgt : Nat) (f : FrameSpec) (rest : List Nat) :
    scanFrames ts tgt (encodeFrame ts f ++ rest) =
      (fun r => if specHeader f = tgt then
          ⟨specPayload ts f :: r.payloads, r.framesExamined + 1, r.invalidCount⟩
        else ⟨r.payloads, r.framesExamined + 1, r.invalidCount⟩)
        (scanFrames ts tgt rest) := by
  have := scan_cons_known ts tgt (specHeader f) (specPayload ts f) rest
    ((specPayload ts f).length + 1) (specPayload_length ts f) rfl
  simpa [encodeFrame] using this

theorem scan_encodeFrames_append (ts : Bool) (tgt : Nat) (fs : List FrameSpec)
    (tail : List Nat) :
    scanFrames ts tgt (encodeFrames ts fs ++ tail) =
      (fun r =>
        ⟨(fs.filter (fun f => specHeader f == tgt)).map (specPayload ts) ++ r.payloads,
         fs.length + r.framesExamined, r.invalidCount⟩)
        (scanFrames ts tgt tail) := by
  induction fs with
  | nil => simp [encodeFrames]
  | cons f fs ih =>
    rw [encodeFrames, List.append_assoc, scan_encodeFrame, ih]
    by_cases h : specHeader f = tgt
    · simp [h, Nat.add_assoc, Nat.add_comm, Nat.add_left_comm]
    · simp [h, Nat.add_assoc, Nat.add_comm, Nat.add_left_comm]

theorem scan_encodeFrames (ts : Bool) (tgt : Nat) (fs : List FrameSpec) :
    scanFrames ts tgt (encodeFrames ts fs) =
      ⟨(fs.filter (fun f => specHeader f == tgt)).map (specPayload ts),
       fs.length, 0⟩ := by
  have := scan_encodeFrames_append ts tgt fs []
  simpa [scanFrames] using this

theorem frameWindow_mkFrame (bs : List Nat) : frameWindow (mkFrame bs) = bs := by
  simp [frameWindow, mkFrame]

theorem extractAxesRes_encodeFrames_tail (ts : Bool) (tgt : Nat) (fs : List FrameSpec)
    (tail : List Nat) :
    extractAxesRes tgt (mkFrame (encodeFrames ts fs ++ tail)) ts =
      ⟨(fs.filter (fun f => specHeader f == tgt)).map (specAxesSample ts) ++
         (scanFrames ts tgt tail).payloads.map (decodeAxes ts),
       fs.length + (scanFrames ts tgt tail).framesExamined,
       (scanFrames ts tgt tail).invalidCount⟩ := by
  simp [extractAxesRes, frameWindow_mkFrame, scan_encodeFrames_append,
    List.map_map, specAxesSample, Function.comp]

theorem extractTempRes_encodeFrames_tail (ts : Bool) (fs : List FrameSpec)
    (tail : List Nat) :
    extractTempRes (mkFrame (encodeFrames ts fs ++ tail)) ts =
      ⟨(fs.filter isTempSpec).map (specTempSample ts) ++
         (scanFrames ts BMI3_FIFO_HEAD_TEMP tail).payloads.map (decodeTemp ts),
       fs.length + (scanFrames ts BMI3_FIFO_HEAD_TEMP tail).framesExamined,
       (scanFrames ts BMI3_FIFO_HEAD_TEMP tail).invalidCount⟩ := by
  simp only [extractTempRes, frameWindow_mkFrame, scan_encodeFrames_append,
    List.map_append, List.map_map]
  rfl

theorem scanFrames_nil (ts : Bool) (tgt : Nat) : scanFrames ts tgt [] = ⟨[], 0, 0⟩ := by
  rw [scanFrames]

theorem scanFrames_empty_marker (ts : Bool) (tgt : Nat) (bs : List Nat) :
    scanFrames ts tgt (BMI3_FIFO_HEAD_EMPTY :: bs) = ⟨[], 0, 0⟩ := by
  rw [scanFrames]
  simp [frameWidth, BMI3_FIFO_HEAD_EMPTY, BMI3_FIFO_HEAD_ACC, BMI3_FIFO_HEAD_GYR,
    BMI3_FIFO_HEAD_TEMP, BMI3_FIFO_HEAD_SKIP, BMI3_FIFO_HEAD_CONFIG]

theorem scanFrames_unknown (ts : Bool) (tgt b : Nat) (bs : List Nat)
    (hb : frameWidth ts b = none) :
    scanFrames ts tgt (b :: bs) = ⟨[], 0, 1⟩ := by
  rw [scanFrames, hb]

theorem scanFrames_truncated (ts : Bool) (tgt h : Nat) (junk : List Nat) (w : Nat)
    (hw : frameWidth ts h = some w) (hshort : junk.length + 1 < w) :
    scanFrames ts tgt (h :: junk) = ⟨[], 0, 0⟩ := by
  rw [scanFrames, hw]
  have hw0 : ¬ w = 0 := by omega
  simp only [if_neg hw0, if_pos hshort]

/-! ## Wire arithmetic lemmas -/

theorem wire16_lt (v : Int) : wire16 v < 65536 := by
  unfold wire16; omega

theorem le16_split (w : Nat) (h : w < 65536) : le16 (w % 256) (w / 256 % 256) = w := by
  unfold le16; omega

theorem twos16_wire16 (v : Int) (h1 : -32768 ≤ v) (h2 : v < 32768) :
    twos16 (wire16 v) = v := by
  unfold twos16 wire16
  split <;> omega

/-! ## Ideal samples for round-trip statements -/

/-- The signed axis values and time stamp a synthetic accel or gyro frame
was built from. -/
def idealAxes (ts : Bool) : FrameSpec → bmi3_fifo_sens_axes_data
  | .accel x y z t => ⟨x, y, z, if ts then t else 0⟩
  | .gyro x y z t => ⟨x, y, z, if ts then t else 0⟩
  | _ => ⟨0, 0, 0, 0⟩

/-- Range side condition under which encoding is lossless: signed 16-bit
axis values and a 16-bit time stamp. -/
def specInRange : FrameSpec → Prop
  | .accel x y z t =>
    -32768 ≤ x ∧ x < 32768 ∧ -32768 ≤ y ∧ y < 32768 ∧ -32768 ≤ z ∧ z < 32768 ∧ t < 65536
  | .gyro x y z t =>
    -32768 ≤ x ∧ x < 32768 ∧ -32768 ≤ y ∧ y < 32768 ∧ -32768 ≤ z ∧ z < 32768 ∧ t < 65536
  | .temp raw t => raw < 65536 ∧ t < 65536
  | _ => True

theorem specAxesSample_eq_ideal (ts : Bool) (f : FrameSpec) (hr : specInRange f)
    (hk : isAccelSpec f = true ∨ isGyroSpec f = true) :
    specAxesSample ts f = idealAxes ts f := by
  cases f with
  | accel x y z t =>
    obtain ⟨h1, h2, h3, h4, h5, h6, h7⟩ := hr
    have ex := twos16_wire16 x h1 h2
    have ey := twos16_wire16 y h3 h4
    have ez := twos16_wire16 z h5 h6
    cases ts <;>
      simp [specAxesSample, idealAxes, decodeAxes, specPayload, bytes16,
        le16_split _ (wire16_lt x), le16_split _ (wire16_lt y),
        le16_split _ (wire16_lt z), ex, ey, ez] <;>
      rw [le16_split (t % 65536) (by omega)] <;> omega
  | gyro x y z t =>
    obtain ⟨h1, h2, h3, h4, h5, h6, h7⟩ := hr
    have ex := twos16_wire16 x h1 h2
    have ey := twos16_wire16 y h3 h4
    have ez := twos16_wire16 z h5 h6
    cases ts <;>
      simp [specAxesSample, idealAxes, decodeAxes, specPayload, bytes16,
        le16_split _ (wire16_lt x), le16_split _ (wire16_lt y),
        le16_split _ (wire16_lt z), ex, ey, ez] <;>
      rw [le16_split (t % 65536) (by omega)] <;> omega
  | temp raw t =>
    exact absurd hk (by simp [isAccelSpec, isGyroSpec, specHeader, BMI3_FIFO_HEAD_ACC,
      BMI3_FIFO_HEAD_GYR, BMI3_FIFO_HEAD_TEMP])
  | skip fill =>
    exact absurd hk (by simp [isAccelSpec, isGyroSpec, specHeader, BMI3_FIFO_HEAD_ACC,
      BMI3_FIFO_HEAD_GYR, BMI3_FIFO_HEAD_SKIP])
  | config =>
    exact absurd hk (by simp [isAccelSpec, isGyroSpec, specHeader, BMI3_FIFO_HEAD_ACC,
      BMI3_FIFO_HEAD_GYR, BMI3_FIFO_HEAD_CONFIG])

theorem specTempSample_temp (ts : Bool) (raw t : Nat) :
    specTempSample ts (.temp raw t) =
      ⟨raw % 65536, if ts then t % 65536 else 0⟩ := by
  cases ts <;>
    simp [specTempSample, decodeTemp, specPayload, bytes16,
      le16_split (raw % 65536) (by omega), le16_split (t % 65536) (by omega)]

/-! ## Chunked FIFO read lemmas -/

theorem readChunks_ok_length (dev : bmi3_dev) :
    ∀ remaining offset l, readChunks dev offset remaining = .ok l →
      l.length ≤ remaining := by
  intro remaining
  induction remaining using Nat.strong_induction_on with
  | _ remaining ih =>
    intro offset l h
    rw [readChunks] at h
    by_cases h0 : remaining = 0
    · simp [h0] at h
      simp [← h, h0]
    · rw [if_neg h0] at h
      by_cases hc : min dev.read_write_len remaining = 0
      · rw [if_pos hc] at h
        cases h
        simp
      · rw [if_neg hc] at h
        cases he : dev.chunk_err offset (min dev.read_write_len remaining) with
        | some code => rw [he] at h; cases h
        | none =>
          rw [he] at h
          cases hr : readChunks dev (offset + min dev.read_write_len remaining)
              (remaining - min dev.read_write_len remaining) with
          | error e => rw [hr] at h; cases h
          | ok rest =>
            rw [hr] at h
            cases h
            have hm : min dev.read_write_len remaining ≤ remaining := Nat.min_le_right _ _
            have := ih (remaining - min dev.read_write_len remaining) (by omega) _ _ hr
            simp only [List.length_append, List.length_map, List.length_range]
            omega

theorem range_map_split (s : Nat → Nat) (offset c r : Nat) (hc : c ≤ r) :
    (List.range r).map (fun i => s (offset + i)) =
      (List.range c).map (fun i => s (offset + i)) ++
        (List.range (r - c)).map (fun i => s (offset + c + i)) := by
  conv_lhs => rw [show r = c + (r - c) by omega]
  rw [List.range_add, List.map_append, List.map_map]
  congr 1
  apply List.map_congr_left
  intro a _
  simp only [Function.comp_apply]
  congr 1
  omega

theorem readChunks_ok_eq (dev : bmi3_dev) (hmax : 0 < dev.read_write_len) :
    ∀ remaining offset l, readChunks dev offset remaining = .ok l →
      l = (List.range remaining).map (fun i => dev.fifo_stream (offset + i)) := by
  intro remaining
  induction remaining using Nat.strong_induction_on with
  | _ remaining ih =>
    intro offset l h
    rw [readChunks] at h
    by_cases h0 : remaining = 0
    · simp [h0] at h
      subst h0
      simp [h]
    · rw [if_neg h0] at h
      have hc : ¬ min dev.read_write_len remaining = 0 := by
        simp only [Nat.min_eq_zero_iff]; omega
      rw [if_neg hc] at h
      cases he : dev.chunk_err offset (min dev.read_write_len remaining) with
      | some code => rw [he] at h; cases h
      | none =>
        rw [he] at h
        cases hr : readChunks dev (offset + min dev.read_write_len remaining)
            (remaining - min dev.read_write_len remaining) with
        | error e => rw [hr] at h; cases h
        | ok rest =>
          rw [hr] at h
          cases h
          have hm : min dev.read_write_len remaining ≤ remaining := Nat.min_le_right _ _
          have hc1 : 0 < min dev.read_write_len remaining := Nat.pos_of_ne_zero hc
          have hrest := ih (remaining - min dev.read_write_len remaining) (by omega) _ _ hr
          subst hrest
          conv_rhs => rw [range_map_split dev.fifo_stream offset
            (min dev.read_write_len remaining) remaining hm]

theorem readChunks_error_shape (dev : bmi3_dev) :
    ∀ remaining offset e, readChunks dev offset remaining = .error e →
      ∃ o c code, dev.chunk_err o c = some code ∧ e = .communicationError code := by
  intro remaining
  induction remaining using Nat.strong_induction_on with
  | _ remaining ih =>
    intro offset e h
    rw [readChunks] at h
    by_cases h0 : remaining = 0
    · simp [h0] at h
    · rw [if_neg h0] at h
      by_cases hc : min dev.read_write_len remaining = 0
      · rw [if_pos hc] at h; cases h
      · rw [if_neg hc] at h
        cases he : dev.chunk_err offset (min dev.read_write_len remaining) with
        | some code =>
          rw [he] at h
          cases h
          exact ⟨offset, min dev.read_write_len remaining, code, he, rfl⟩
        | none =>
          rw [he] at h
          cases hr : readChunks dev (offset + min dev.read_write_len remaining)
              (remaining - min dev.read_write_len remaining) with
          | error e2 =>
            rw [hr] at h
            cases h
            have hm : min dev.read_write_len remaining ≤ remaining := Nat.min_le_right _ _
            exact ih (remaining - min dev.read_write_len remaining) (by omega) _ _ hr
          | ok rest => rw [hr] at h; cases h

theorem readChunks_all_ok (dev : bmi3_dev)
    (hok : ∀ o c, dev.chunk_err o c = none) :
    ∀ remaining offset, ∃ l, readChunks dev offset remaining = .ok l := by
  intro remaining
  induction remaining using Nat.strong_induction_on with
  | _ remaining ih =>
    intro offset
    rw [readChunks]
    by_cases h0 : remaining = 0
    · simp [h0]
    · rw [if_neg h0]
      by_cases hc : min dev.read_write_len remaining = 0
      · rw [if_pos hc]; exact ⟨[], rfl⟩
      · rw [if_neg hc, hok]
        have hm : min dev.read_write_len remaining ≤ remaining := Nat.min_le_right _ _
        obtain ⟨l, hl⟩ := ih (remaining - min dev.read_write_len remaining) (by omega)
          (offset + min dev.read_write_len remaining)
        rw [hl]
        exact ⟨_, rfl⟩

theorem extractAxesRes_encodeFrames (ts : Bool) (tgt : Nat) (fs : List FrameSpec) :
    extractAxesRes tgt (mkFrame (encodeFrames ts fs)) ts =
      ⟨(fs.filter (fun f => specHeader f == tgt)).map (specAxesSample ts), fs.length, 0⟩ := by
  have := extractAxesRes_encodeFrames_tail ts tgt fs []
  simpa [scanFrames_nil] using this

theorem extractTempRes_encodeFrames (ts : Bool) (fs : List FrameSpec) :
    extractTempRes (mkFrame (encodeFrames ts fs)) ts =
      ⟨(fs.filter isTempSpec).map (specTempSample ts), fs.length, 0⟩ := by
  have := extractTempRes_encodeFrames_tail ts fs []
  simpa [scanFrames_nil] using this

theorem readChunks_congr (d1 d2 : bmi3_dev)
    (hmax : d1.read_write_len = d2.read_write_len)
    (herr : ∀ o c, c ≤ d1.read_write_len → d1.chunk_err o c = d2.chunk_err o c)
    (hstream : ∀ i, d1.fifo_stream i = d2.fifo_stream i) :
    ∀ remaining offset, readChunks d1 offset remaining = readChunks d2 offset remaining := by
  intro remaining
  induction remaining using Nat.strong_induction_on with
  | _ remaining ih =>
    intro offset
    rw [readChunks, readChunks, ← hmax]
    by_cases h0 : remaining = 0
    · simp [h0]
    · rw [if_neg h0, if_neg h0]
      by_cases hc : min d1.read_write_len remaining = 0
      · rw [if_pos hc, if_pos hc]
      · rw [if_neg hc, if_neg hc,
          ← herr offset (min d1.read_write_len remaining) (Nat.min_le_left _ _)]
        cases he : d1.chunk_err offset (min d1.read_write_len remaining) with
        | some code => rfl
        | none =>
          have hm : min d1.read_write_len remaining ≤ remaining := Nat.min_le_right _ _
          rw [ih (remaining - min d1.read_write_len remaining) (by omega)
            (offset + min d1.read_write_len remaining)]
          cases readChunks d2 (offset + min d1.read_write_len remaining)
              (remaining - min d1.read_write_len remaining) with
          | error e => rfl
          | ok rest => simp [hstream]

/-! ## Claim theorems -/

/-- C1: for every buffer holding N accel frames and M gyro frames
interleaved in any order, accel extraction decodes exactly the N accel
samples and gyro extraction exactly the M gyro samples, each in FIFO
arrival order, when each is run against an unconsumed copy of the buffer;
in particular a buffer of only accel frames yields one sample per frame in
original order. -/
theorem extract_accel_gyro_counts_and_order (ts : Bool) (fs : List FrameSpec) :
    bmi3_extract_accel (some (mkFrame (encodeFrames ts fs))) ts =
      .ok (⟨(fs.filter isAccelSpec).map (specAxesSample ts), fs.length, 0⟩,
        mkFrame (encodeFrames ts fs)) ∧
    bmi3_extract_gyro (some (mkFrame (encodeFrames ts fs))) ts =
      .ok (⟨(fs.filter isGyroSpec).map (specAxesSample ts), fs.length, 0⟩,
        mkFrame (encodeFrames ts fs)) := by
  constructor
  · simp only [bmi3_extract_accel, extractAxesRes_encodeFrames]
    rfl
  · simp only [bmi3_extract_gyro, extractAxesRes_encodeFrames]
    rfl

/-- C8: a buffer whose first byte is the FIFO-empty marker yields zero
samples, zero anomalies and no further scanning, for each of the three
extraction calls, whatever bytes follow the marker. -/
theorem extract_empty_marker_terminates (ts : Bool) (bs : List Nat) :
    bmi3_extract_accel (some (mkFrame (BMI3_FIFO_HEAD_EMPTY :: bs))) ts =
      .ok (⟨[], 0, 0⟩, mkFrame (BMI3_FIFO_HEAD_EMPTY :: bs)) ∧
    bmi3_extract_gyro (some (mkFrame (BMI3_FIFO_HEAD_EMPTY :: bs))) ts =
      .ok (⟨[], 0, 0⟩, mkFrame (BMI3_FIFO_HEAD_EMPTY :: bs)) ∧
    bmi3_extract_temperature (some (mkFrame (BMI3_FIFO_HEAD_EMPTY :: bs))) ts =
      .ok (⟨[], 0, 0⟩, mkFrame (BMI3_FIFO_HEAD_EMPTY :: bs)) := by
  refine ⟨?_, ?_, ?_⟩ <;>
    simp [bmi3_extract_accel, bmi3_extract_gyro, bmi3_extract_temperature,
      extractAxesRes, extractTempRes, frameWindow_mkFrame, scanFrames_empty_marker]

/-- C9: temperature extraction never filters frames carrying the
invalid-temperature sentinel: every temperature frame yields one output
sample, and a frame built from the sentinel wire value is emitted with
exactly that sentinel value. -/
theorem extract_temperature_keeps_sentinel (ts : Bool) (fs : List FrameSpec) :
    bmi3_extract_temperature (some (mkFrame (encodeFrames ts fs))) ts =
      .ok (⟨(fs.filter isTempSpec).map (specTempSample ts), fs.length, 0⟩,
        mkFrame (encodeFrames ts fs)) ∧
    (∀ raw t : Nat, (specTempSample ts (.temp raw t)).temp_data = raw % 65536) ∧
    (∀ t : Nat, (specTempSample ts (.temp BMI3_FIFO_TEMP_INVALID t)).temp_data =
      BMI3_FIFO_TEMP_INVALID) := by
  refine ⟨?_, ?_, ?_⟩
  · simp only [bmi3_extract_temperature, extractTempRes_encodeFrames]
  · intro raw t
    rw [specTempSample_temp]
  · intro t
    rw [specTempSample_temp]
    norm_num [BMI3_FIFO_TEMP_INVALID]

/-- C2: a buffer whose final frame is truncated (fewer bytes remain than
that frame type's fixed width) yields exactly the complete frames, with no
sample decoded from the truncated trailing bytes and zero anomalies; and
extraction reads nothing beyond the populated length: its result is
unchanged when the bytes past `length` are discarded. -/
theorem extract_truncated_frame (ts : Bool) (fs : List FrameSpec) (h w : Nat)
    (junk : List Nat) (hw : frameWidth ts h = some w) (hshort : junk.length + 1 < w) :
    bmi3_extract_accel (some (mkFrame (encodeFrames ts fs ++ h :: junk))) ts =
      .ok (⟨(fs.filter isAccelSpec).map (specAxesSample ts), fs.length, 0⟩,
        mkFrame (encodeFrames ts fs ++ h :: junk)) ∧
    bmi3_extract_gyro (some (mkFrame (encodeFrames ts fs ++ h :: junk))) ts =
      .ok (⟨(fs.filter isGyroSpec).map (specAxesSample ts), fs.length, 0⟩,
        mkFrame (encodeFrames ts fs ++ h :: junk)) ∧
    bmi3_extract_temperature (some (mkFrame (encodeFrames ts fs ++ h :: junk))) ts =
      .ok (⟨(fs.filter isTempSpec).map (specTempSample ts), fs.length, 0⟩,
        mkFrame (encodeFrames ts fs ++ h :: junk)) ∧
    (∀ (tgt : Nat) (g : bmi3_fifo_frame) (ts2 : Bool),
      extractAxesRes tgt g ts2 =
        extractAxesRes tgt ⟨g.data.take g.length, g.length, g.byte_available, g.capacity⟩ ts2) := by
  refine ⟨?_, ?_, ?_, ?_⟩
  · simp only [bmi3_extract_accel, extractAxesRes_encodeFrames_tail,
      scanFrames_truncated ts BMI3_FIFO_HEAD_ACC h junk w hw hshort]
    simp
    rfl
  · simp only [bmi3_extract_gyro, extractAxesRes_encodeFrames_tail,
      scanFrames_truncated ts BMI3_FIFO_HEAD_GYR h junk w hw hshort]
    simp
    rfl
  · simp only [bmi3_extract_temperature, extractTempRes_encodeFrames_tail,
      scanFrames_truncated ts BMI3_FIFO_HEAD_TEMP h junk w hw hshort]
    simp
  · intro tgt g ts2
    simp [extractAxesRes, frameWindow, List.take_take]

/-- C3: an unrecognized header byte halts the scan at that position
without decoding or skipping any further bytes, increments the anomaly
counter exactly once for the scan, and the extraction call still returns
a success status: the anomaly is visible only in the counter. -/
theorem extract_unknown_header_halts (ts : Bool) (fs : List FrameSpec) (b : Nat)
    (junk : List Nat) (hb : frameWidth ts b = none) :
    bmi3_extract_accel (some (mkFrame (encodeFrames ts fs ++ b :: junk))) ts =
      .ok (⟨(fs.filter isAccelSpec).map (specAxesSample ts), fs.length, 1⟩,
        mkFrame (encodeFrames ts fs ++ b :: junk)) ∧
    bmi3_extract_gyro (some (mkFrame (encodeFrames ts fs ++ b :: junk))) ts =
      .ok (⟨(fs.filter isGyroSpec).map (specAxesSample ts), fs.length, 1⟩,
        mkFrame (encodeFrames ts fs ++ b :: junk)) ∧
    bmi3_extract_temperature (some (mkFrame (encodeFrames ts fs ++ b :: junk))) ts =
      .ok (⟨(fs.filter isTempSpec).map (specTempSample ts), fs.length, 1⟩,
        mkFrame (encodeFrames ts fs ++ b :: junk)) := by
  refine ⟨?_, ?_, ?_⟩
  · simp only [bmi3_extract_accel, extractAxesRes_encodeFrames_tail,
      scanFrames_unknown ts BMI3_FIFO_HEAD_ACC b junk hb]
    simp
    rfl
  · simp only [bmi3_extract_gyro, extractAxesRes_encodeFrames_tail,
      scanFrames_unknown ts BMI3_FIFO_HEAD_GYR b junk hb]
    simp
    rfl
  · simp only [bmi3_extract_temperature, extractTempRes_encodeFrames_tail,
      scanFrames_unknown ts BMI3_FIFO_HEAD_TEMP b junk hb]
    simp

/-- C4: extraction is a non-destructive re-scan: an accel extraction call
returns the buffer unchanged, so a later gyro or temperature extraction on
the buffer it returns yields exactly what it would yield on the original
buffer snapshot. -/
theorem extract_calls_independent (f : bmi3_fifo_frame) (ts : Bool)
    (r : axes_extraction) (f2 : bmi3_fifo_frame)
    (hacc : bmi3_extract_accel (some f) ts = .ok (r, f2)) :
    f2 = f ∧
    bmi3_extract_gyro (some f2) ts = bmi3_extract_gyro (some f) ts ∧
    bmi3_extract_temperature (some f2) ts = bmi3_extract_temperature (some f) ts := by
  simp only [bmi3_extract_accel, Except.ok.injEq, Prod.mk.injEq] at hacc
  obtain ⟨-, h2⟩ := hacc
  subst h2
  exact ⟨rfl, rfl, rfl⟩

/-- C5: round-trip: decoding a buffer encoded from known in-range signed
16-bit sample values reproduces exactly the original signed axis and
time values, with two's-complement sign extension at the 16-bit boundary;
in particular the raw wire word 0xFF00 decodes to the signed value -256. -/
theorem extract_roundtrip_sign_extension (ts : Bool) (fs : List FrameSpec)
    (hr : ∀ f ∈ fs, specInRange f) :
    bmi3_extract_accel (some (mkFrame (encodeFrames ts fs))) ts =
      .ok (⟨(fs.filter isAccelSpec).map (idealAxes ts), fs.length, 0⟩,
        mkFrame (encodeFrames ts fs)) ∧
    bmi3_extract_gyro (some (mkFrame (encodeFrames ts fs))) ts =
      .ok (⟨(fs.filter isGyroSpec).map (idealAxes ts), fs.length, 0⟩,
        mkFrame (encodeFrames ts fs)) ∧
    twos16 0xFF00 = -256 := by
  have hacc : (fs.filter isAccelSpec).map (specAxesSample ts) =
      (fs.filter isAccelSpec).map (idealAxes ts) := by
    apply List.map_congr_left
    intro f hf
    rw [List.mem_filter] at hf
    exact specAxesSample_eq_ideal ts f (hr f hf.1) (Or.inl hf.2)
  have hgyr : (fs.filter isGyroSpec).map (specAxesSample ts) =
      (fs.filter isGyroSpec).map (idealAxes ts) := by
    apply List.map_congr_left
    intro f hf
    rw [List.mem_filter] at hf
    exact specAxesSample_eq_ideal ts f (hr f hf.1) (Or.inr hf.2)
  refine ⟨?_, ?_, by norm_num [twos16]⟩
  · simp only [bmi3_extract_accel, extractAxesRes_encodeFrames, ← hacc]
    rfl
  · simp only [bmi3_extract_gyro, extractAxesRes_encodeFrames, ← hgyr]
    rfl

/-- C6: on every successful call the FIFO read delivers exactly the lesser
of the buffer capacity and the available FIFO byte count, accumulated
contiguously from the transport byte stream, with the populated length set
to the bytes received and the cursor reset to 0; and the read is issued in
chunks no larger than the transport maximum single-transfer size: its
outcome depends on the transport only through chunk reads of at most that
size. -/
theorem read_fifo_clamped_chunked :
    (∀ (f : bmi3_fifo_frame) (d : bmi3_dev) (f2 : bmi3_fifo_frame),
      0 < d.read_write_len →
      bmi3_read_fifo_data (some f) (some d) = .ok f2 →
      f2.length = min f.capacity (bmi3_get_fifo_length d) ∧
      f2.byte_available = 0 ∧
      f2.data = (List.range (min f.capacity (bmi3_get_fifo_length d))).map d.fifo_stream ∧
      f2.data.length = f2.length ∧
      f2.capacity = f.capacity) ∧
    (∀ (f : bmi3_fifo_frame) (d1 d2 : bmi3_dev),
      d1.avail_fifo_len = d2.avail_fifo_len →
      d1.read_write_len = d2.read_write_len →
      (∀ o c, c ≤ d1.read_write_len → d1.chunk_err o c = d2.chunk_err o c) →
      (∀ i, d1.fifo_stream i = d2.fifo_stream i) →
      bmi3_read_fifo_data (some f) (some d1) = bmi3_read_fifo_data (some f) (some d2)) := by
  constructor
  · intro f d f2 hmax hok
    rw [bmi3_read_fifo_data] at hok
    cases hr : readChunks d 0 (min f.capacity (bmi3_get_fifo_length d)) with
    | error e => rw [hr] at hok; cases hok
    | ok bytes =>
      rw [hr] at hok
      cases hok
      have hb := readChunks_ok_eq d hmax _ 0 bytes hr
      have hb2 : bytes = (List.range (min f.capacity (bmi3_get_fifo_length d))).map
          d.fifo_stream := by
        rw [hb]
        apply List.map_congr_left
        intro a _
        rw [Nat.zero_add]
      refine ⟨?_, rfl, hb2, ?_, rfl⟩
      · simp [hb2]
      · simp [hb2]
  · intro f d1 d2 havail hmax herr hstream
    rw [bmi3_read_fifo_data, bmi3_read_fifo_data, bmi3_get_fifo_length,
      bmi3_get_fifo_length, ← havail,
      readChunks_congr d1 d2 hmax herr hstream (min f.capacity d1.avail_fifo_len) 0]

/-- C7: the FIFO read fails with InvalidArgument exactly when the device
or the frame-buffer structure is absent; every other failure is a
CommunicationError carrying a transport chunk-read error code propagated
unmodified; and when no chunk read fails the call succeeds. -/
theorem read_fifo_error_taxonomy :
    (∀ (f : Option bmi3_fifo_frame) (d : Option bmi3_dev),
      bmi3_read_fifo_data f d = .error .invalidArgument ↔ (f = none ∨ d = none)) ∧
    (∀ (f : bmi3_fifo_frame) (d : bmi3_dev) (e : bmi3_error),
      bmi3_read_fifo_data (some f) (some d) = .error e →
      ∃ o c code, d.chunk_err o c = some code ∧ e = .communicationError code) ∧
    (∀ (f : bmi3_fifo_frame) (d : bmi3_dev),
      (∀ o c, d.chunk_err o c = none) →
      ∃ f2, bmi3_read_fifo_data (some f) (some d) = .ok f2) := by
  refine ⟨?_, ?_, ?_⟩
  · intro f d
    cases f with
    | none => simp [bmi3_read_fifo_data]
    | some f =>
      cases d with
      | none => simp [bmi3_read_fifo_data]
      | some d =>
        simp only [Option.some_ne_none, or_self, iff_false]
        intro hok
        rw [bmi3_read_fifo_data] at hok
        cases hr : readChunks d 0 (min f.capacity (bmi3_get_fifo_length d)) with
        | error e =>
          rw [hr] at hok
          obtain ⟨o, c, code, -, he⟩ := readChunks_error_shape d _ 0 e hr
          cases hok
          cases he
        | ok bytes => rw [hr] at hok; cases hok
  · intro f d e h
    rw [bmi3_read_fifo_data] at h
    cases hr : readChunks d 0 (min f.capacity (bmi3_get_fifo_length d)) with
    | error e2 =>
      rw [hr] at h
      cases h
      exact readChunks_error_shape d _ 0 e hr
    | ok bytes => rw [hr] at h; cases h
  · intro f d hok
    obtain ⟨l, hl⟩ := readChunks_all_ok d hok (min f.capacity (bmi3_get_fifo_length d)) 0
    rw [bmi3_read_fifo_data, hl]
    exact ⟨_, rfl⟩

/-- C10: the frame-buffer invariant, cursor at most length at most
capacity, is preserved by every operation: a successful FIFO read returns
a buffer satisfying it, and each extraction call returns the buffer it was
given, so the invariant carries over unchanged. -/
theorem frame_invariant_preserved :
    (∀ (f : bmi3_fifo_frame) (d : bmi3_dev) (f2 : bmi3_fifo_frame),
      frameWf f → bmi3_read_fifo_data (some f) (some d) = .ok f2 → frameWf f2) ∧
    (∀ (f : bmi3_fifo_frame) (ts : Bool) (r : axes_extraction) (f2 : bmi3_fifo_frame),
      frameWf f → bmi3_extract_accel (some f) ts = .ok (r, f2) → frameWf f2) ∧
    (∀ (f : bmi3_fifo_frame) (ts : Bool) (r : axes_extraction) (f2 : bmi3_fifo_frame),
      frameWf f → bmi3_extract_gyro (some f) ts = .ok (r, f2) → frameWf f2) ∧
    (∀ (f : bmi3_fifo_frame) (ts : Bool) (r : temperature_extraction) (f2 : bmi3_fifo_frame),
      frameWf f → bmi3_extract_temperature (some f) ts = .ok (r, f2) → frameWf f2) := by
  refine ⟨?_, ?_, ?_, ?_⟩
  · intro f d f2 hwf hok
    rw [bmi3_read_fifo_data] at hok
    cases hr : readChunks d 0 (min f.capacity (bmi3_get_fifo_length d)) with
    | error e => rw [hr] at hok; cases hok
    | ok bytes =>
      rw [hr] at hok
      cases hok
      have hlen := readChunks_ok_length d _ 0 bytes hr
      constructor
      · exact Nat.zero_le _
      · have : min f.capacity (bmi3_get_fifo_length d) ≤ f.capacity := Nat.min_le_left _ _
        simpa using Nat.le_trans hlen this
  · intro f ts r f2 hwf hok
    simp only [bmi3_extract_accel, Except.ok.injEq, Prod.mk.injEq] at hok
    obtain ⟨-, h2⟩ := hok
    subst h2
    exact hwf
  · intro f ts r f2 hwf hok
    simp only [bmi3_extract_gyro, Except.ok.injEq, Prod.mk.injEq] at hok
    obtain ⟨-, h2⟩ := hok
    subst h2
    exact hwf
  · intro f ts r f2 hwf hok
    simp only [bmi3_extract_temperature, Except.ok.injEq, Prod.mk.injEq] at hok
    obtain ⟨-, h2⟩ := hok
    subst h2
    exact hwf

/-! ## Concrete instances used by the witnesses -/

/-- A device whose transport always succeeds: 1 byte available, transfer
size 1, stream value equal to the burst position. -/
def devW : bmi3_dev := ⟨1, 1, fun i => i, fun _ _ => none⟩

/-- A device whose every chunk read fails with transport code 7. -/
def devF : bmi3_dev := ⟨1, 1, fun i => i, fun _ _ => some 7⟩

/-- An empty frame buffer of capacity 1. -/
def frameW : bmi3_fifo_frame := ⟨[], 0, 0, 1⟩

theorem read_fifo_devW_ok :
    bmi3_read_fifo_data (some frameW) (some devW) = .ok ⟨[0], 1, 0, 1⟩ := by
  have h0 : readChunks devW 1 0 = .ok [] := by rw [readChunks]; rfl
  have hr1 : List.range 1 = [0] := rfl
  have h1 : readChunks devW 0 1 = .ok [0] := by
    rw [readChunks]
    simp only [devW] at h0 ⊢
    simp [h0, hr1]
  rw [bmi3_read_fifo_data]
  rw [show min frameW.capacity (bmi3_get_fifo_length devW) = 1 by decide]
  rw [h1]
  rfl

theorem read_fifo_devF_err :
    bmi3_read_fifo_data (some frameW) (some devF) = .error (.communicationError 7) := by
  have h1 : readChunks devF 0 1 = .error (.communicationError 7) := by
    rw [readChunks]
    simp only [devF]
    simp
  rw [bmi3_read_fifo_data]
  rw [show min frameW.capacity (bmi3_get_fifo_length devF) = 1 by decide]
  rw [h1]

/-! ## Witnesses -/

theorem extract_truncated_frame_witness :
    bmi3_extract_accel (some (mkFrame (encodeFrames false [FrameSpec.accel 1 2 3 0] ++
        BMI3_FIFO_HEAD_GYR :: [9, 9, 9]))) false =
      .ok (⟨([FrameSpec.accel 1 2 3 0].filter isAccelSpec).map (specAxesSample false), 1, 0⟩,
        mkFrame (encodeFrames false [FrameSpec.accel 1 2 3 0] ++
          BMI3_FIFO_HEAD_GYR :: [9, 9, 9])) :=
  (extract_truncated_frame false [FrameSpec.accel 1 2 3 0] BMI3_FIFO_HEAD_GYR 7 [9, 9, 9]
    (by decide) (by decide)).1

theorem extract_unknown_header_halts_witness :
    bmi3_extract_accel (some (mkFrame (encodeFrames false [FrameSpec.accel 1 2 3 0] ++
        19 :: [7, 7]))) false =
      .ok (⟨([FrameSpec.accel 1 2 3 0].filter isAccelSpec).map (specAxesSample false), 1, 1⟩,
        mkFrame (encodeFrames false [FrameSpec.accel 1 2 3 0] ++ 19 :: [7, 7])) :=
  (extract_unknown_header_halts false [FrameSpec.accel 1 2 3 0] 19 [7, 7] (by decide)).1

theorem extract_calls_independent_witness :
    mkFrame [5] = mkFrame [5] ∧
    bmi3_extract_gyro (some (mkFrame [5])) true = bmi3_extract_gyro (some (mkFrame [5])) true ∧
    bmi3_extract_temperature (some (mkFrame [5])) true =
      bmi3_extract_temperature (some (mkFrame [5])) true :=
  extract_calls_independent (mkFrame [5]) true
    (extractAxesRes BMI3_FIFO_HEAD_ACC (mkFrame [5]) true) (mkFrame [5]) rfl

theorem extract_roundtrip_sign_extension_witness : twos16 0xFF00 = -256 :=
  (extract_roundtrip_sign_extension true
    [FrameSpec.accel 100 (-200) 300 5, FrameSpec.gyro 1 2 3 7]
    (by intro f hf; fin_cases hf <;> norm_num [specInRange])).2.2

theorem read_fifo_clamped_chunked_witness :
    (bmi3_fifo_frame.mk [0] 1 0 1).length = min frameW.capacity (bmi3_get_fifo_length devW) ∧
    (bmi3_fifo_frame.mk [0] 1 0 1).byte_available = 0 ∧
    (bmi3_fifo_frame.mk [0] 1 0 1).data =
      (List.range (min frameW.capacity (bmi3_get_fifo_length devW))).map devW.fifo_stream ∧
    (bmi3_fifo_frame.mk [0] 1 0 1).data.length = (bmi3_fifo_frame.mk [0] 1 0 1).length ∧
    (bmi3_fifo_frame.mk [0] 1 0 1).capacity = frameW.capacity :=
  read_fifo_clamped_chunked.1 frameW devW ⟨[0], 1, 0, 1⟩ (by decide) read_fifo_devW_ok

theorem read_fifo_error_taxonomy_witness :
    (∃ o c code, devF.chunk_err o c = some code ∧
      (bmi3_error.communicationError 7) = .communicationError code) ∧
    (∃ f2, bmi3_read_fifo_data (some frameW) (some devW) = .ok f2) :=
  ⟨read_fifo_error_taxonomy.2.1 frameW devF (.communicationError 7) read_fifo_devF_err,
   read_fifo_error_taxonomy.2.2 frameW devW (fun _ _ => rfl)⟩

theorem frame_invariant_preserved_witness :
    frameWf (bmi3_fifo_frame.mk [0] 1 0 1) ∧ frameWf (mkFrame [5]) :=
  ⟨frame_invariant_preserved.1 frameW devW ⟨[0], 1, 0, 1⟩ (by decide) read_fifo_devW_ok,
   frame_invariant_preserved.2.1 (mkFrame [5]) true
     (extractAxesRes BMI3_FIFO_HEAD_ACC (mkFrame [5]) true) (mkFrame [5]) (by decide) rfl⟩

end BMI3
